import Mathlib

/-!
Verification of the `langterm` CLI (src/index.js) against its design
specification.  The JavaScript source is shallowly embedded: each JS
function becomes a Lean function over `List Char` / `String`, and the
`run` control flow becomes a pure function from an environment (network
results, operator input lines, preference-file contents) to an outcome
together with a trace of observable events.
-/

namespace Langterm

/-- The backtick character, written via its code point. -/
def btick : Char := '\x60'

/-- Whitespace as recognised by JavaScript `String.prototype.trim`
(ECMA-262 WhiteSpace and LineTerminator code points). -/
def isJsWs (c : Char) : Bool :=
  let n := c.toNat
  n == 0x9 || n == 0xA || n == 0xB || n == 0xC || n == 0xD ||
  n == 0x20 || n == 0xA0 || n == 0x1680 ||
  (0x2000 ≤ n && n ≤ 0x200A) ||
  n == 0x2028 || n == 0x2029 || n == 0x202F || n == 0x205F ||
  n == 0x3000 || n == 0xFEFF

/-- JavaScript `s.trim()`: drop leading and trailing whitespace. -/
def jsTrim (cs : List Char) : List Char :=
  ((cs.dropWhile isJsWs).reverse.dropWhile isJsWs).reverse

/-- JavaScript `command.replace(/\x60\x60\x60/g, '')` (src/index.js:174):
remove every non-overlapping occurrence of a triple-backtick fence,
scanning left to right. -/
def removeFences : List Char → List Char
  | a :: b :: c :: rest =>
      if a = btick ∧ b = btick ∧ c = btick then removeFences rest
      else a :: removeFences (b :: c :: rest)
  | [c, d] => [c, d]
  | [c] => [c]
  | [] => []

/-- The characters after the first backtick, or `none` when there is no
backtick (the regex engine finding the opening delimiter). -/
def afterFirstTick : List Char → Option (List Char)
  | [] => none
  | c :: rest => if c = btick then some rest else afterFirstTick rest

/-- The characters before the next backtick, or `none` when no closing
backtick exists (the regex `[^\x60]*\x60` after the opening delimiter). -/
def upToTick : List Char → Option (List Char)
  | [] => none
  | c :: rest =>
      if c = btick then some [] else (upToTick rest).map (c :: ·)

/-- JavaScript `command.match(/\x60([^\x60]*)\x60/)` (src/index.js:172):
the capture group of the first backtick-delimited span, when a complete
span exists. -/
def matchSpan (cs : List Char) : Option (List Char) :=
  (afterFirstTick cs).bind upToTick

/-- The response-cleanup step of `generateCommand` (src/index.js:170-177)
on character lists.  When the text contains a backtick, take the first
backtick-delimited capture; an empty or failed capture is falsy in JS, so
`|| command` falls back to the original text.  Otherwise remove fence
markers and trim. -/
def extractData (cs : List Char) : List Char :=
  if cs.any (· = btick) then
    match matchSpan cs with
    | some interior => if interior = [] then cs else interior
    | none => cs
  else
    jsTrim (removeFences cs)

/-- The Command Extractor on strings: `extract(rawText) -> string`. -/
def extract (s : String) : String :=
  String.mk (extractData s.data)

/-! ## The preference store (src/index.js:24-36)

`saveConfig` writes `JSON.stringify(config, null, 2)` for the single-field
object `\x7b model: string \x7d`; `loadConfig` reads the file and
`JSON.parse`s it, treating any failure as "no configuration".  The JSON
string escaping/unescaping is embedded faithfully for all Unicode scalar
values (JS strings are UTF-16 code-unit sequences; lone surrogates, which
Lean `Char` cannot represent, are outside the model). -/

/-- The configuration object: `\x7b model: <string> \x7d`. -/
structure Config where
  model : String
deriving Repr, DecidableEq

/-- Lower-case hexadecimal digit for a value below 16,
as produced by JSON.stringify's `\u00XX` escapes. -/
def hexDigitChar (n : Nat) : Char :=
  if n < 10 then Char.ofNat (48 + n) else Char.ofNat (87 + n)

/-- Numeric value of a hexadecimal digit (either case), `none` otherwise. -/
def fromHexDigit (c : Char) : Option Nat :=
  if '0' ≤ c ∧ c ≤ '9' then some (c.toNat - 48)
  else if 'a' ≤ c ∧ c ≤ 'f' then some (c.toNat - 87)
  else if 'A' ≤ c ∧ c ≤ 'F' then some (c.toNat - 55)
  else none

/-- JSON.stringify's QuoteJSONString escaping of one character. -/
def escapeChar (c : Char) : List Char :=
  if c = '"' then ['\\', '"']
  else if c = '\\' then ['\\', '\\']
  else if c = '\x08' then ['\\', 'b']
  else if c = '\x0c' then ['\\', 'f']
  else if c = '\n' then ['\\', 'n']
  else if c = '\r' then ['\\', 'r']
  else if c = '\t' then ['\\', 't']
  else if c.toNat < 0x20 then
    ['\\', 'u', '0', '0', hexDigitChar (c.toNat / 16), hexDigitChar (c.toNat % 16)]
  else [c]

/-- JSON string-body escaping, character by character. -/
def escapeList : List Char → List Char
  | [] => []
  | c :: rest => escapeChar c ++ escapeList rest

/-- The single-character JSON escape codes accepted by JSON.parse. -/
def unescapeCode (e : Char) : Option Char :=
  if e = '"' then some '"'
  else if e = '\\' then some '\\'
  else if e = '/' then some '/'
  else if e = 'b' then some '\x08'
  else if e = 'f' then some '\x0c'
  else if e = 'n' then some '\n'
  else if e = 'r' then some '\r'
  else if e = 't' then some '\t'
  else none

/-- JSON.parse's string-body scanner, entered after the opening quote:
returns the decoded characters and the input remaining after the closing
quote.  Raw control characters are rejected, as in JSON; `\uXXXX` escapes
for surrogate code points are outside the model (they cannot decode to a
Lean `Char`, and `saveConfig` never produces them). -/
def parseStrBody : List Char → Option (List Char × List Char)
  | [] => none
  | c :: rest =>
    if c = '"' then some ([], rest)
    else if c = '\\' then
      match rest with
      | 'u' :: h1 :: h2 :: h3 :: h4 :: rest4 =>
        match fromHexDigit h1, fromHexDigit h2, fromHexDigit h3, fromHexDigit h4 with
        | some a, some b, some d1, some d2 =>
          let n := ((a * 16 + b) * 16 + d1) * 16 + d2
          if n < 0xD800 then
            (parseStrBody rest4).map (fun p => (Char.ofNat n :: p.1, p.2))
          else none
        | _, _, _, _ => none
      | 'u' :: _ => none
      | e :: rest2 =>
        match unescapeCode e with
        | some d => (parseStrBody rest2).map (fun p => (d :: p.1, p.2))
        | none => none
      | [] => none
    else if c.toNat < 0x20 then none
    else (parseStrBody rest).map (fun p => (c :: p.1, p.2))

/-- JSON whitespace. -/
def isJsonWs (c : Char) : Bool :=
  c = ' ' || c = '\t' || c = '\n' || c = '\r'

/-- Skip JSON whitespace. -/
def skipWs (cs : List Char) : List Char :=
  cs.dropWhile isJsonWs

/-- `JSON.stringify(\x7b model: s \x7d, null, 2)` (src/index.js:34) as a
character list: the two-space-indented object with the single key
`model`. -/
def stringifyConfigData (c : Config) : List Char :=
  '\x7b' :: '\n' :: ' ' :: ' ' :: '"' :: 'm' :: 'o' :: 'd' :: 'e' :: 'l' :: '"' ::
  ':' :: ' ' :: '"' :: (escapeList c.model.data ++ '"' :: '\n' :: '\x7d' :: [])

/-- `saveConfig` (src/index.js:33-36): the file contents written for a
configuration. -/
def saveConfig (c : Config) : String :=
  String.mk (stringifyConfigData c)

/-- `JSON.parse` restricted to the shape `saveConfig` writes: a JSON
object whose single member is the key `"model"` with a string value,
with arbitrary surrounding JSON whitespace.  Files outside this shape
are treated as absent, as `loadConfig`'s catch-all does for unparsable
data. -/
def parseConfigFile (s : String) : Option Config :=
  match skipWs s.data with
  | c0 :: r1 =>
    if c0 = '\x7b' then
      match skipWs r1 with
      | c1 :: r2 =>
        if c1 = '"' then
          match parseStrBody r2 with
          | some (key, r3) =>
            match skipWs r3 with
            | c2 :: r4 =>
              if c2 = ':' then
                match skipWs r4 with
                | c3 :: r5 =>
                  if c3 = '"' then
                    match parseStrBody r5 with
                    | some (val, r6) =>
                      match skipWs r6 with
                      | c4 :: r7 =>
                        if c4 = '\x7d' ∧ skipWs r7 = [] ∧ key = "model".data then
                          some ⟨String.mk val⟩
                        else none
                      | [] => none
                    | none => none
                  else none
                | [] => none
              else none
            | [] => none
          | none => none
        else none
      | [] => none
    else none
  | [] => none

/-- `loadConfig` (src/index.js:24-31): a missing file or a parse failure
yields no configuration rather than an error. -/
def loadConfig (file : Option String) : Option Config :=
  match file with
  | none => none
  | some contents => parseConfigFile contents

/-! ## The session controller (src/index.js:204-298)

`run` is embedded as a pure function.  The environment fixes the results
the outside world would give: whether the inference service answers its
listing endpoint, the installed models, the generation response body (or
`none` for a failed request), the exit code of the spawned command, and
the host platform.  Operator line input is a list of strings consumed in
order; an exhausted list at a read models the process blocking on input.
Observable effects are collected as an event trace. -/

/-- The results the outside world supplies during one invocation. -/
structure Env where
  ollamaUp : Bool
  models : List String
  genResult : Option String
  execExit : Int
  platform : String
deriving Repr, DecidableEq

/-- Observable effects of a run, in order. -/
inductive Event where
  | debugEcho (args : List String)
  | helpShown
  | versionShown
  | setupWelcome
  | tagsRequest
  | fileWrite (contents : String)
  | generateRequest (model : String) (renderedPrompt : String)
  | execCmd (cmd : String)
deriving Repr, DecidableEq

/-- How an invocation ends: with a process exit code, or still blocked on
an operator read that never receives input. -/
inductive Outcome where
  | exitCode (code : Nat)
  | blocked
deriving Repr, DecidableEq

/-- Outcome, event trace, and final preference-file contents. -/
structure RunResult where
  outcome : Outcome
  events : List Event
  file : Option String
deriving Repr, DecidableEq

/-- The early flag loop (src/index.js:209-226): the first recognised flag
in argument order wins. -/
inductive EarlyAction where
  | helpAct
  | versionAct
  | setupAct
deriving Repr, DecidableEq

/-- Scan the arguments for `--help`/`-h`, `--version`/`-v`,
`--setup`/`-s`; the first match decides. -/
def earlyFlagScan : List String → Option EarlyAction
  | [] => none
  | a :: rest =>
    if a = "--help" ∨ a = "-h" then some .helpAct
    else if a = "--version" ∨ a = "-v" then some .versionAct
    else if a = "--setup" ∨ a = "-s" then some .setupAct
    else earlyFlagScan rest

/-- Index of the first `--model`/`-m` argument, if any
(`findIndex`, src/index.js:234). -/
def findModelFlagIdx (args : List String) : Option Nat :=
  args.findIdx? (fun a => a = "--model" || a = "-m")

/-- The model-override parse (src/index.js:232-238): when a `--model`/`-m`
flag is followed by a truthy (non-empty) value, that value is the
override and the flag plus value are spliced out; otherwise the argument
list is left untouched. -/
def extractModelFlag (args : List String) : Option String × List String :=
  match findModelFlagIdx args with
  | none => (none, args)
  | some i =>
    match args[i + 1]? with
    | some v =>
      if v = "" then (none, args)
      else (some v, args.take i ++ args.drop (i + 2))
    | none => (none, args)

/-- JavaScript `parseInt` with no radix argument, on a prompt answer:
optional leading whitespace, optional sign, an optional `0x`/`0X` prefix
selecting radix 16, then a maximal run of digits of the radix; `none`
models `NaN` (every comparison with which is false). -/
def parseIntJS (s : String) : Option Int :=
  let cs := s.data.dropWhile isJsWs
  let (sign, cs) : Int × List Char :=
    match cs with
    | '-' :: rest => (-1, rest)
    | '+' :: rest => (1, rest)
    | _ => (1, cs)
  let (radix, cs) : Nat × List Char :=
    match cs with
    | '0' :: 'x' :: rest => (16, rest)
    | '0' :: 'X' :: rest => (16, rest)
    | _ => (10, cs)
  let digits := cs.takeWhile (fun c => (fromHexDigit c).any (· < radix))
  if digits = [] then none
  else
    some (sign *
      (digits.foldl (fun acc c => acc * radix + ((fromHexDigit c).getD 0) : Nat → Char → Nat) 0 : Nat))

/-- One attempt of the selection loop (src/index.js:78-86): the answer is
accepted when `parseInt(choice) - 1` lands in range. -/
def acceptChoice (models : List String) (choice : String) : Option String :=
  match parseIntJS choice with
  | none => none
  | some v =>
    let idx := v - 1
    if 0 ≤ idx ∧ idx < models.length then models.toArray[idx.toNat]? else none

/-- `selectModel` (src/index.js:72-87): consume operator answers until one
is a valid 1-based index; `none` when the input list runs out (the loop
re-prompts indefinitely). -/
def selectModel (models : List String) : List String → Option (String × List String)
  | [] => none
  | choice :: rest =>
    match acceptChoice models choice with
    | some name => some (name, rest)
    | none => selectModel models rest

/-- How the setup sub-flow ends. -/
inductive SetupOutcome where
  | fail
  | stuck
  | finished (name : String) (restInputs : List String)
deriving Repr, DecidableEq

/-- `setup` (src/index.js:89-117): welcome banner, availability probe,
model listing, selection loop, then persisting the choice.  `fail` is a
`process.exit(1)` path; `stuck` is the selection loop waiting on input
that never comes. -/
def setupFlow (env : Env) (inputs : List String) : List Event × SetupOutcome :=
  if env.ollamaUp then
    if env.models = [] then ([.setupWelcome, .tagsRequest, .tagsRequest], .fail)
    else
      match selectModel env.models inputs with
      | some (name, rest) =>
        ([.setupWelcome, .tagsRequest, .tagsRequest,
          .fileWrite (saveConfig ⟨name⟩)], .finished name rest)
      | none => ([.setupWelcome, .tagsRequest, .tagsRequest], .stuck)
  else ([.setupWelcome, .tagsRequest], .fail)

/-- The OS context label of `generateCommand` (src/index.js:120-134). -/
def osContextFor (platform : String) : String :=
  if platform = "win32" then "Windows (Command Prompt/PowerShell)"
  else if platform = "darwin" then "macOS (Terminal)"
  else "Linux (Terminal)"

/-- The OS-appropriate example command (src/index.js:125-134). -/
def exampleCommandFor (platform : String) : String :=
  if platform = "win32" then "dir /a" else "ls -la"

/-- The Prompt Builder: the template literal of src/index.js:136-150,
rendered for a platform and instruction. -/
def buildPrompt (platform userInput : String) : String :=
  let osContext := osContextFor platform
  let exampleCommand := exampleCommandFor platform
  "You are an expert translator that converts English instructions into a single, executable terminal command for "
  ++ osContext ++ ".\n\n**RULES:**\n1.  ONLY return the raw command appropriate for "
  ++ osContext
  ++ ".\n2.  Do NOT include any explanation or natural language.\n3.  Do NOT include markdown formatting like ``` or backticks (`).\n4.  Use platform-specific commands (e.g., \x27dir\x27 on Windows, \x27ls\x27 on Unix/Linux/macOS).\n\n**EXAMPLE:**\nInstruction: list all files\nResponse: "
  ++ exampleCommand
  ++ "\n\n**TASK:**\nInstruction: " ++ userInput ++ "\nResponse:"

/-- The confirmation read and its two branches (src/index.js:286-293):
an empty answer executes the command (the run then exits 0 on child exit
code 0 and 1 otherwise, via the catch at src/index.js:294-297); any other
answer cancels and the run returns normally. -/
def confirmStage (cmd : String) (execExit : Int) (inputs : List String) :
    Outcome × List Event :=
  match inputs with
  | [] => (.blocked, [])
  | confirm :: _ =>
    if confirm = "" then
      (if execExit = 0 then .exitCode 0 else .exitCode 1, [.execCmd cmd])
    else (.exitCode 0, [])

/-- `generateCommand`'s request plus the extraction guard of `run`
(src/index.js:152-181 and 276-293): a failed request is the catch-path
exit 1; an extracted command that is empty or the literal `null` is a
generation failure; otherwise the run proceeds to confirmation. -/
def generateStage (env : Env) (model userInput : String) (inputs : List String) :
    Outcome × List Event :=
  let p := buildPrompt env.platform userInput
  match env.genResult with
  | none => (.exitCode 1, [.generateRequest model p])
  | some raw =>
    let cmd := extract raw
    if cmd = "" ∨ cmd = "null" then (.exitCode 1, [.generateRequest model p])
    else
      ((confirmStage cmd env.execExit inputs).1,
       .generateRequest model p :: (confirmStage cmd env.execExit inputs).2)

/-- Instruction acquisition and the empty-input check
(src/index.js:259-270): remaining arguments are space-joined; otherwise
the instruction is read interactively; a whitespace-only instruction is a
fatal input error. -/
def instructionStage (env : Env) (model : String)
    (remainingArgs inputs : List String) : Outcome × List Event :=
  match remainingArgs with
  | a :: rest =>
    let userInput := String.intercalate " " (a :: rest)
    if jsTrim userInput.data = [] then (.exitCode 1, [])
    else generateStage env model userInput inputs
  | [] =>
    match inputs with
    | [] => (.blocked, [])
    | i :: rest =>
      if jsTrim i.data = [] then (.exitCode 1, [])
      else generateStage env model i rest

/-- The availability gate at src/index.js:253-257 followed by the rest of
the run; `pre` and `file` are the events and file contents accumulated so
far. -/
def gateStage (env : Env) (model : String) (remainingArgs inputs : List String)
    (file : Option String) (pre : List Event) : RunResult :=
  if env.ollamaUp then
    ⟨(instructionStage env model remainingArgs inputs).1,
     pre ++ .tagsRequest :: (instructionStage env model remainingArgs inputs).2, file⟩
  else ⟨.exitCode 1, pre ++ [.tagsRequest], file⟩

/-- `run` (src/index.js:204-298): early flags, configuration load, model
override, first-time setup, availability gate, instruction, generation,
confirmation, execution. -/
def run (env : Env) (file : Option String) (args inputs : List String) :
    RunResult :=
  match earlyFlagScan args with
  | some .helpAct => ⟨.exitCode 0, [.helpShown], file⟩
  | some .versionAct => ⟨.exitCode 0, [.versionShown], file⟩
  | some .setupAct =>
    match setupFlow env inputs with
    | (evs, .fail) => ⟨.exitCode 1, evs, file⟩
    | (evs, .stuck) => ⟨.blocked, evs, file⟩
    | (evs, .finished name _) => ⟨.exitCode 0, evs, some (saveConfig ⟨name⟩)⟩
  | none =>
    let config := loadConfig file
    match extractModelFlag args with
    | (some m, remainingArgs) =>
      gateStage env m remainingArgs inputs file []
    | (none, remainingArgs) =>
      match config with
      | some cfg => gateStage env cfg.model remainingArgs inputs file []
      | none =>
        match setupFlow env inputs with
        | (evs, .fail) => ⟨.exitCode 1, evs, file⟩
        | (evs, .stuck) => ⟨.blocked, evs, file⟩
        | (evs, .finished name rest) =>
          gateStage env name remainingArgs rest (some (saveConfig ⟨name⟩)) evs

/-- The whole process: the constructor's debug echo (src/index.js:15-22,
emitted when the DEBUG environment variable is set) followed by `run`. -/
def langtermMain (env : Env) (debug : Bool) (file : Option String)
    (args inputs : List String) : RunResult :=
  let r := run env file args inputs
  if debug then ⟨r.outcome, .debugEcho args :: r.events, r.file⟩ else r

/-- A character list made only of triple-backtick fence markers and
whitespace, in any arrangement. -/
def fencesAndWs : List Char → Bool
  | a :: b :: c :: rest =>
    if a = btick ∧ b = btick ∧ c = btick then fencesAndWs rest
    else isJsWs a && fencesAndWs (b :: c :: rest)
  | [a, b] => isJsWs a && isJsWs b
  | [a] => isJsWs a
  | [] => true

/-! ## Lemmas about the Command Extractor -/

theorem afterFirstTick_append (a r : List Char) (ha : ∀ x ∈ a, x ≠ btick) :
    afterFirstTick (a ++ btick :: r) = some r := by
  induction a with
  | nil => simp [afterFirstTick]
  | cons x xs ih =>
    have hx : x ≠ btick := ha x (by simp)
    simp only [List.cons_append, afterFirstTick, if_neg hx]
    exact ih fun y hy => ha y (by simp [hy])

theorem upToTick_append (b c : List Char) (hb : ∀ x ∈ b, x ≠ btick) :
    upToTick (b ++ btick :: c) = some b := by
  induction b with
  | nil => simp [upToTick]
  | cons x xs ih =>
    have hx : x ≠ btick := hb x (by simp)
    have ih' := ih fun y hy => hb y (by simp [hy])
    simp only [List.cons_append, upToTick, if_neg hx, List.append_eq, ih']
    rfl

theorem matchSpan_split (a b c : List Char) (ha : ∀ x ∈ a, x ≠ btick)
    (hb : ∀ x ∈ b, x ≠ btick) :
    matchSpan (a ++ btick :: (b ++ btick :: c)) = some b := by
  unfold matchSpan
  rw [afterFirstTick_append a (b ++ btick :: c) ha]
  exact upToTick_append b c hb

theorem removeFences_of_no_tick (cs : List Char) (h : ∀ x ∈ cs, x ≠ btick) :
    removeFences cs = cs := by
  induction cs using removeFences.induct with
  | case1 a b c rest habc ih =>
    exact absurd habc.1 (h a (by simp))
  | case2 a b c rest habc ih =>
    simp only [removeFences, if_neg habc]
    rw [ih fun y hy => h y (by simp at hy; rcases hy with hy | hy | hy <;> simp [hy])]
  | case3 c d => rfl
  | case4 c => rfl
  | case5 => rfl

theorem jsTrim_of_all_ws (cs : List Char) (h : ∀ x ∈ cs, isJsWs x) :
    jsTrim cs = [] := by
  unfold jsTrim
  rw [List.dropWhile_eq_nil_iff.mpr fun x hx => h x hx]
  simp

theorem btick_not_ws : isJsWs btick = false := by decide

theorem fencesAndWs_tick_matchSpan (cs : List Char) (hf : fencesAndWs cs = true)
    (ht : cs.any (· = btick) = true) : matchSpan cs = some [] := by
  induction cs using fencesAndWs.induct with
  | case1 a b c rest habc ih =>
    obtain ⟨ha, hb, _⟩ := habc
    subst ha hb
    simp [matchSpan, afterFirstTick, upToTick]
  | case2 a b c rest habc ih =>
    simp only [fencesAndWs, if_neg habc, Bool.and_eq_true] at hf
    have haw : isJsWs a = true := hf.1
    have hane : a ≠ btick := fun h => by rw [h, btick_not_ws] at haw; exact Bool.false_ne_true haw
    have ht' : (b :: c :: rest).any (· = btick) = true := by
      simp only [List.any_cons, Bool.or_eq_true] at ht ⊢
      rcases ht with h1 | h2
      · exact absurd (of_decide_eq_true h1) hane
      · exact h2
    have := ih hf.2 ht'
    simpa [matchSpan, afterFirstTick, if_neg hane] using this
  | case3 a b =>
    simp only [fencesAndWs, Bool.and_eq_true] at hf
    simp only [List.any_cons, List.any_nil, Bool.or_eq_true, Bool.or_false] at ht
    rcases ht with h1 | h2
    · rw [of_decide_eq_true h1, btick_not_ws] at hf; exact absurd hf.1 (by simp)
    · rw [of_decide_eq_true h2, btick_not_ws] at hf; exact absurd hf.2 (by simp)
  | case4 a =>
    simp only [fencesAndWs] at hf
    simp only [List.any_cons, List.any_nil, Bool.or_false] at ht
    rw [of_decide_eq_true ht, btick_not_ws] at hf
    exact absurd hf (by simp)
  | case5 => simp at ht

theorem fencesAndWs_no_tick_ws (cs : List Char) (hf : fencesAndWs cs = true)
    (ht : cs.any (· = btick) = false) : ∀ x ∈ cs, isJsWs x := by
  induction cs using fencesAndWs.induct with
  | case1 a b c rest habc ih =>
    obtain ⟨ha, _, _⟩ := habc
    subst ha
    simp at ht
  | case2 a b c rest habc ih =>
    simp only [fencesAndWs, if_neg habc, Bool.and_eq_true] at hf
    simp only [List.any_cons, Bool.or_eq_false_iff] at ht
    intro x hx
    rw [List.mem_cons] at hx
    rcases hx with rfl | hx
    · exact hf.1
    · exact ih hf.2 (by simp only [List.any_cons, Bool.or_eq_false_iff]; exact ht.2) x hx
  | case3 a b =>
    simp only [fencesAndWs, Bool.and_eq_true] at hf
    intro x hx
    simp only [List.mem_cons, List.not_mem_nil, or_false] at hx
    rcases hx with rfl | rfl
    · exact hf.1
    · exact hf.2
  | case4 a =>
    simp only [fencesAndWs] at hf
    intro x hx
    simp only [List.mem_singleton] at hx
    exact hx ▸ hf
  | case5 => intro x hx; simp at hx

theorem extractData_no_tick (cs : List Char) (h : cs.any (· = btick) = false) :
    extractData cs = jsTrim (removeFences cs) := by
  unfold extractData
  rw [h]
  rfl

/-! ## Claims about the Command Extractor -/

/-- C1 (counterexample): the response consisting of two adjacent
backticks contains exactly one backtick-delimited span, whose interior is
the empty string, yet extraction does not return that interior: the empty
capture is falsy in JavaScript, so the original text comes back. -/
theorem extract_single_span_counterexample :
    extract "``" = "``" ∧ ("``" : String) ≠ "" := by
  constructor
  · decide
  · decide

/-- C1 (amended): for every raw response containing exactly one
backtick-delimited span whose interior is non-empty, extraction returns
exactly that interior, verbatim — including any leading or trailing
whitespace the interior itself carries. -/
theorem extract_single_nonempty_span (a b c : List Char)
    (ha : ∀ x ∈ a, x ≠ btick) (hb : ∀ x ∈ b, x ≠ btick)
    (hc : ∀ x ∈ c, x ≠ btick) (hne : b ≠ []) :
    extract (String.mk (a ++ btick :: (b ++ btick :: c))) = String.mk b := by
  have hmem : (a ++ btick :: (b ++ btick :: c)).any (· = btick) = true := by
    simp [List.any_append]
  unfold extract extractData
  simp only [String.data]
  rw [hmem, matchSpan_split a b c ha hb]
  simp [hne]

/-- C1 witness: the amended theorem applied at the response
`run (backtick)ls -la(backtick) now`. -/
theorem extract_single_nonempty_span_witness :
    extract "run `ls -la` now" = "ls -la" := by
  have h := extract_single_nonempty_span
    ("run ".data) ("ls -la".data) (" now".data)
    (by decide) (by decide) (by decide) (by decide)
  exact (by decide : extract "run `ls -la` now" =
    extract (String.mk ("run ".data ++ btick :: ("ls -la".data ++ btick :: " now".data)))).trans
    (h.trans (by decide))

/-- C10: for every raw response whose first backtick is immediately
followed by another backtick (an empty first span, as at the start of a
fenced block), extraction returns the entire raw response unchanged and
untrimmed: the empty capture is falsy and triggers the fallback to the
original text. -/
theorem extract_empty_first_span (a c : List Char)
    (ha : ∀ x ∈ a, x ≠ btick) :
    extract (String.mk (a ++ btick :: btick :: c)) =
      String.mk (a ++ btick :: btick :: c) := by
  have hmem : (a ++ btick :: btick :: c).any (· = btick) = true := by
    simp [List.any_append]
  unfold extract extractData
  simp only [String.data]
  rw [hmem]
  have hms : matchSpan (a ++ btick :: btick :: c) = some [] := by
    unfold matchSpan
    rw [afterFirstTick_append a (btick :: c) ha]
    simp [upToTick]
  rw [hms]
  simp

/-- C10 witness: the fenced response ```` ```ls``` ```` comes back
unchanged. -/
theorem extract_empty_first_span_witness :
    extract "```ls```" = "```ls```" := by
  have h := extract_empty_first_span [] ("`ls```".data) (by decide)
  exact (by decide : extract "```ls```" =
    extract (String.mk ([] ++ btick :: btick :: "`ls```".data))).trans (h.trans (by decide))

/-- C4 (counterexample): a response consisting of a single fence marker
and nothing else does not yield an empty string — it contains a backtick,
so extraction takes the backtick branch, captures the empty span between
the first two backticks, and falls back to the original text. -/
theorem extract_fence_only_counterexample :
    extract "```" = "```" ∧ ("```" : String) ≠ "" := by
  constructor
  · decide
  · decide

/-- C4 (amended): a raw response consisting only of fence markers and
whitespace is returned unchanged whenever it contains at least one fence
marker (the fence's adjacent backticks give an empty first capture, which
is falsy and falls back to the original text); only when it contains no
fence at all — i.e. it is pure whitespace — does extraction return the
empty string. -/
theorem extract_fence_only (cs : List Char) (hf : fencesAndWs cs = true) :
    extract (String.mk cs) =
      (if cs.any (· = btick) then String.mk cs else "") := by
  unfold extract
  by_cases ht : cs.any (· = btick) = true
  · rw [if_pos ht]
    unfold extractData
    simp only [String.data]
    rw [ht, fencesAndWs_tick_matchSpan cs hf ht]
    simp
  · have ht' : cs.any (· = btick) = false := by
      cases h : cs.any (· = btick)
      · rfl
      · exact absurd h ht
    rw [ht', if_neg (by simp)]
    simp only [String.data]
    rw [extractData_no_tick cs ht']
    have hnot : ∀ x ∈ cs, x ≠ btick := by
      intro x hx h
      subst h
      have hcontra : cs.any (· = btick) = true :=
        List.any_eq_true.mpr ⟨btick, hx, by simp⟩
      rw [hcontra] at ht'
      simp at ht'
    rw [removeFences_of_no_tick cs hnot,
      jsTrim_of_all_ws cs (fencesAndWs_no_tick_ws cs hf ht')]

/-- C4 witness: the amended theorem applied at a fence-plus-newline-plus-
fence response (returned unchanged) and at a whitespace-only response
(extracted to the empty string). -/
theorem extract_fence_only_witness :
    extract "``` \n```" = "``` \n```" ∧ extract " \n\t " = "" := by
  constructor
  · have h := extract_fence_only ("``` \n```".data) (by decide)
    exact (by decide : extract "``` \n```" =
      extract (String.mk ("``` \n```".data))).trans (h.trans (by decide))
  · have h := extract_fence_only (" \n\t ".data) (by decide)
    exact (by decide : extract " \n\t " =
      extract (String.mk (" \n\t ".data))).trans (h.trans (by decide))

/-- C5 (counterexample): for the response `space backtick space`, no
backtick span can be extracted, yet the result is the original text, not
the trimmed raw text — the backtick branch falls back without trimming. -/
theorem extract_total_counterexample :
    extract " ` " = " ` " ∧ String.mk (jsTrim (" ` ").data) = "`" ∧
      (" ` " : String) ≠ "`" := by
  refine ⟨by decide, by decide, by decide⟩

/-- C5 (amended): extraction is a total function (it is definable as a
terminating Lean function over all input strings); the empty input yields
the empty string; when no backtick span can be extracted the worst case
splits: a response with no backtick at all comes back with fence markers
removed and whitespace trimmed (and since it has no backticks the fence
removal is the identity, so this is the trimmed raw text), while a
response containing a backtick but no extractable span comes back as the
original, untrimmed text. -/
theorem extract_total :
    extract "" = "" ∧
    ∀ cs : List Char,
      (cs.any (· = btick) = false →
        extract (String.mk cs) = String.mk (jsTrim cs)) ∧
      (cs.any (· = btick) = true →
        (matchSpan cs = none ∨ matchSpan cs = some []) →
        extract (String.mk cs) = String.mk cs) := by
  refine ⟨by decide, fun cs => ⟨fun ht => ?_, fun ht hm => ?_⟩⟩
  · unfold extract
    simp only [String.data]
    rw [extractData_no_tick cs ht]
    have hnot : ∀ x ∈ cs, x ≠ btick := by
      intro x hx h
      subst h
      have hcontra : cs.any (· = btick) = true :=
        List.any_eq_true.mpr ⟨btick, hx, by simp⟩
      rw [hcontra] at ht
      simp at ht
    rw [removeFences_of_no_tick cs hnot]
  · unfold extract extractData
    simp only [String.data]
    rw [ht]
    rcases hm with hm | hm <;> rw [hm] <;> simp

/-- C5 witness: the amended theorem applied at a backtick-free response
(trimmed) and at a single-backtick response (returned untrimmed). -/
theorem extract_total_witness :
    extract "  ls -la  " = "ls -la" ∧ extract " ` " = " ` " := by
  constructor
  · have h := (extract_total.2 ("  ls -la  ".data)).1 (by decide)
    exact (by decide : extract "  ls -la  " =
      extract (String.mk ("  ls -la  ".data))).trans (h.trans (by decide))
  · have h := (extract_total.2 (" ` ".data)).2 (by decide) (Or.inl (by decide))
    exact (by decide : extract " ` " =
      extract (String.mk (" ` ".data))).trans (h.trans (by decide))

/-! ## The preference-store round trip -/

theorem fromHexDigit_hexDigitChar : ∀ m, m < 16 → fromHexDigit (hexDigitChar m) = some m := by
  decide

theorem parseStrBody_escapeList (cs tail : List Char) :
    parseStrBody (escapeList cs ++ '"' :: tail) = some (cs, tail) := by
  induction cs with
  | nil =>
    show parseStrBody ('"' :: tail) = _
    rw [parseStrBody.eq_def]
    simp
  | cons c rest ih =>
    show parseStrBody (escapeChar c ++ escapeList rest ++ '"' :: tail) = _
    by_cases h1 : c = '"'
    · subst h1
      rw [show escapeChar '"' = ['\\', '"'] from by decide]
      simp only [List.cons_append, List.singleton_append, List.nil_append]; rw [parseStrBody.eq_def]
      simp [unescapeCode, ih]
    · by_cases h2 : c = '\\'
      · subst h2
        rw [show escapeChar '\\' = ['\\', '\\'] from by decide]
        simp only [List.cons_append, List.singleton_append, List.nil_append]; rw [parseStrBody.eq_def]
        simp [unescapeCode, ih]
      · by_cases h3 : c = '\x08'
        · subst h3
          rw [show escapeChar '\x08' = ['\\', 'b'] from by decide]
          simp only [List.cons_append, List.singleton_append, List.nil_append]; rw [parseStrBody.eq_def]
          simp [unescapeCode, ih]
        · by_cases h4 : c = '\x0c'
          · subst h4
            rw [show escapeChar '\x0c' = ['\\', 'f'] from by decide]
            simp only [List.cons_append, List.singleton_append, List.nil_append]; rw [parseStrBody.eq_def]
            simp [unescapeCode, ih]
          · by_cases h5 : c = '\n'
            · subst h5
              rw [show escapeChar '\n' = ['\\', 'n'] from by decide]
              simp only [List.cons_append, List.singleton_append, List.nil_append]; rw [parseStrBody.eq_def]
              simp [unescapeCode, ih]
            · by_cases h6 : c = '\r'
              · subst h6
                rw [show escapeChar '\r' = ['\\', 'r'] from by decide]
                simp only [List.cons_append, List.singleton_append, List.nil_append]; rw [parseStrBody.eq_def]
                simp [unescapeCode, ih]
              · by_cases h7 : c = '\t'
                · subst h7
                  rw [show escapeChar '\t' = ['\\', 't'] from by decide]
                  simp only [List.cons_append, List.singleton_append, List.nil_append]; rw [parseStrBody.eq_def]
                  simp [unescapeCode, ih]
                · by_cases h8 : c.toNat < 0x20
                  · have hesc : escapeChar c = ['\\', 'u', '0', '0',
                        hexDigitChar (c.toNat / 16), hexDigitChar (c.toNat % 16)] := by
                      unfold escapeChar
                      rw [if_neg h1, if_neg h2, if_neg h3, if_neg h4, if_neg h5,
                        if_neg h6, if_neg h7, if_pos h8]
                    rw [hesc]
                    have hd1 := fromHexDigit_hexDigitChar (c.toNat / 16) (by omega)
                    have hd2 := fromHexDigit_hexDigitChar (c.toNat % 16) (by omega)
                    have h0 : fromHexDigit '0' = some 0 := by decide
                    simp only [List.cons_append, List.nil_append]
                    rw [parseStrBody.eq_def]
                    simp only [reduceIte, reduceCtorEq, Char.reduceEq, h0, hd1, hd2, ih]
                    have hn : ((0 * 16 + 0) * 16 + c.toNat / 16) * 16 + c.toNat % 16
                        = c.toNat := by omega
                    simp only [hn]
                    rw [if_pos (by omega : c.toNat < 55296)]
                    simp [Char.ofNat_toNat]
                  · have hesc : escapeChar c = [c] := by
                      unfold escapeChar
                      rw [if_neg h1, if_neg h2, if_neg h3, if_neg h4, if_neg h5,
                        if_neg h6, if_neg h7, if_neg h8]
                    rw [hesc]
                    simp only [List.cons_append, List.nil_append]
                    rw [parseStrBody.eq_def]
                    simp [h1, h2, h8, ih]


theorem parseStrBody_model_key (X : List Char) :
    parseStrBody ('m' :: 'o' :: 'd' :: 'e' :: 'l' :: '"' :: X) = some ("model".data, X) := by
  have h := parseStrBody_escapeList ("model".data) X
  rw [show escapeList "model".data = ['m', 'o', 'd', 'e', 'l'] from by decide] at h
  simpa using h

/-- C8: for every preference value, writing it with `saveConfig` and
reading the written file back with `loadConfig` yields exactly the saved
value: the JSON string escaping used by stringify is inverted by the
parser for every model-name string. -/
theorem saveConfig_loadConfig_roundtrip (c : Config) :
    loadConfig (some (saveConfig c)) = some c := by
  obtain ⟨⟨data⟩⟩ := c
  show parseConfigFile (String.mk (stringifyConfigData ⟨String.mk data⟩)) = _
  unfold parseConfigFile
  simp only [stringifyConfigData]
  simp [skipWs, isJsonWs]
  rw [parseStrBody_model_key]
  simp [skipWs, isJsonWs]
  rw [parseStrBody_escapeList]
  simp [skipWs, isJsonWs]

/-! ## Lemmas about the session controller -/

theorem confirmStage_events (c : String) (ex : Int) (inputs : List String) (e : Event)
    (he : e ∈ (confirmStage c ex inputs).2) : e = .execCmd c := by
  unfold confirmStage at he
  rcases inputs with _ | ⟨confirm, rest⟩
  · simp at he
  · by_cases hcf : confirm = ""
    · simp [hcf] at he
      exact he
    · simp [hcf] at he

theorem generateStage_events (env : Env) (model ui : String) (inputs : List String) (e : Event)
    (he : e ∈ (generateStage env model ui inputs).2) :
    e = .generateRequest model (buildPrompt env.platform ui) ∨
    (∃ raw, env.genResult = some raw ∧ e = .execCmd (extract raw) ∧
      extract raw ≠ "" ∧ extract raw ≠ "null") := by
  unfold generateStage at he
  rcases hg : env.genResult with _ | raw
  · rw [hg] at he
    simp at he
    exact Or.inl he
  · rw [hg] at he
    simp only at he
    by_cases hguard : extract raw = "" ∨ extract raw = "null"
    · rw [if_pos hguard] at he
      simp at he
      exact Or.inl he
    · rw [if_neg hguard] at he
      push_neg at hguard
      simp only [List.mem_cons] at he
      rcases he with he | he
      · exact Or.inl he
      · exact Or.inr ⟨raw, rfl, confirmStage_events _ _ _ _ (by simpa using he),
          hguard.1, hguard.2⟩

theorem instructionStage_events (env : Env) (model : String)
    (remainingArgs inputs : List String) (e : Event)
    (he : e ∈ (instructionStage env model remainingArgs inputs).2) :
    (∃ p, e = .generateRequest model p) ∨
    (∃ raw, env.genResult = some raw ∧ e = .execCmd (extract raw) ∧
      extract raw ≠ "" ∧ extract raw ≠ "null") := by
  unfold instructionStage at he
  rcases remainingArgs with _ | ⟨a, rest⟩
  · rcases inputs with _ | ⟨i, irest⟩
    · simp at he
    · dsimp only at he
      by_cases hi : jsTrim i.data = []
      · simp [hi] at he
      · rw [if_neg hi] at he
        rcases generateStage_events env model i irest e he with h | h
        · exact Or.inl ⟨_, h⟩
        · exact Or.inr h
  · dsimp only at he
    by_cases ha : jsTrim (String.intercalate " " (a :: rest)).data = []
    · simp [ha] at he
    · rw [if_neg ha] at he
      rcases generateStage_events env model _ inputs e he with h | h
      · exact Or.inl ⟨_, h⟩
      · exact Or.inr h

theorem gateStage_file (env : Env) (model : String) (remainingArgs inputs : List String)
    (file : Option String) (pre : List Event) :
    (gateStage env model remainingArgs inputs file pre).file = file := by
  unfold gateStage
  by_cases h : env.ollamaUp = true
  · simp [h]
  · simp [h]

theorem gateStage_events (env : Env) (model : String) (remainingArgs inputs : List String)
    (file : Option String) (pre : List Event) (e : Event)
    (he : e ∈ (gateStage env model remainingArgs inputs file pre).events) :
    e ∈ pre ∨ e = .tagsRequest ∨ (∃ p, e = .generateRequest model p) ∨
    (∃ raw, env.genResult = some raw ∧ e = .execCmd (extract raw) ∧
      extract raw ≠ "" ∧ extract raw ≠ "null") := by
  unfold gateStage at he
  by_cases h : env.ollamaUp
  · rw [if_pos h] at he
    simp only [List.mem_append, List.mem_cons] at he
    rcases he with he | he | he
    · exact Or.inl he
    · exact Or.inr (Or.inl he)
    · rcases instructionStage_events env model remainingArgs inputs e he with h2 | h2
      · exact Or.inr (Or.inr (Or.inl h2))
      · exact Or.inr (Or.inr (Or.inr h2))
  · rw [if_neg h] at he
    simp only [List.mem_append, List.mem_cons, List.not_mem_nil, or_false] at he
    rcases he with he | he
    · exact Or.inl he
    · exact Or.inr (Or.inl he)

theorem setupFlow_events (env : Env) (inputs : List String) (e : Event)
    (he : e ∈ (setupFlow env inputs).1) :
    e = .setupWelcome ∨ e = .tagsRequest ∨ ∃ s, e = .fileWrite s := by
  unfold setupFlow at he
  by_cases h : env.ollamaUp
  · rw [if_pos h] at he
    by_cases hm : env.models = []
    · simp [hm] at he
      rcases he with he | he <;> simp [he]
    · rw [if_neg hm] at he
      rcases hs : selectModel env.models inputs with _ | ⟨name, rest⟩
      · rw [hs] at he
        simp at he
        rcases he with he | he <;> simp [he]
      · rw [hs] at he
        simp at he
        rcases he with he | he | he <;> simp [he]
  · rw [if_neg h] at he
    simp at he
    rcases he with he | he <;> simp [he]


/-! ## Claims about the session controller -/

/-- C7: when a per-run model override is supplied together with an
instruction, the setup sub-flow is never entered even though no
preference file exists, and the preference file is unchanged afterward:
the run neither shows the setup banner nor writes any file, and the final
file state is still absent. -/
theorem run_override_skips_setup (env : Env) (args inputs : List String)
    (m : String) (rem : List String)
    (hscan : earlyFlagScan args = none)
    (hov : extractModelFlag args = (some m, rem))
    (hinstr : rem ≠ []) :
    (run env none args inputs).file = none ∧
    Event.setupWelcome ∉ (run env none args inputs).events ∧
    ∀ s, Event.fileWrite s ∉ (run env none args inputs).events := by
  unfold run
  rw [hscan, hov]
  dsimp only
  refine ⟨gateStage_file env m rem inputs none [], ?_, ?_⟩
  · intro hmem
    rcases gateStage_events env m rem inputs none [] _ hmem with
      h | h | ⟨p, h⟩ | ⟨raw, _, h, _⟩ <;> simp at h
  · intro s hmem
    rcases gateStage_events env m rem inputs none [] _ hmem with
      h | h | ⟨p, h⟩ | ⟨raw, _, h, _⟩ <;> simp at h

/-- C6: whenever the availability check fails (the listing endpoint is
unreachable) and the run is not diverted by an early flag, the process
exits with code 1 and no request is ever made to the generation
endpoint. -/
theorem run_unavailable_no_generate (env : Env) (file : Option String)
    (args inputs : List String)
    (hup : env.ollamaUp = false)
    (hscan : earlyFlagScan args = none) :
    (run env file args inputs).outcome = .exitCode 1 ∧
    ∀ m p, Event.generateRequest m p ∉ (run env file args inputs).events := by
  unfold run
  rw [hscan]
  dsimp only
  rcases hov : extractModelFlag args with ⟨ov, rem⟩
  rcases ov with _ | m
  · dsimp only
    rcases hcfg : loadConfig file with _ | cfg
    · dsimp only
      rcases hsf : setupFlow env inputs with ⟨evs, so⟩
      have hso : so = .fail := by
        unfold setupFlow at hsf
        rw [hup] at hsf
        simp at hsf
        exact hsf.2.symm
      subst hso
      dsimp only
      have hevs : evs = [.setupWelcome, .tagsRequest] := by
        unfold setupFlow at hsf
        rw [hup] at hsf
        simp at hsf
        exact hsf.symm
      subst hevs
      refine ⟨rfl, ?_⟩
      intro mn p hmem
      simp at hmem
    · dsimp only
      unfold gateStage
      simp only [hup, Bool.false_eq_true, if_false]
      refine ⟨trivial, ?_⟩
      intro mn p hmem
      simp at hmem
  · dsimp only
    unfold gateStage
    simp only [hup, Bool.false_eq_true, if_false]
    refine ⟨trivial, ?_⟩
    intro mn p hmem
    simp at hmem

/-- C3: at the confirmation step, input of exactly the empty string makes
the controller proceed to executing the extracted command (the run's
trace ends with the execution event and the exit code follows the child's
exit), while any non-empty input cancels: the run exits 0 and no
execution event occurs. -/
theorem run_confirm_gesture (env : Env) (file : Option String)
    (args : List String) (cfg : Config) (raw confirm : String)
    (hscan : earlyFlagScan args = none)
    (hov : extractModelFlag args = (none, args))
    (hcfg : loadConfig file = some cfg)
    (hup : env.ollamaUp = true)
    (hargs : args ≠ [])
    (htrim : jsTrim (String.intercalate " " args).data ≠ [])
    (hgen : env.genResult = some raw)
    (hne : extract raw ≠ "")
    (hnull : extract raw ≠ "null") :
    (confirm = "" →
      (run env file args [confirm]).events =
        [.tagsRequest,
         .generateRequest cfg.model
           (buildPrompt env.platform (String.intercalate " " args)),
         .execCmd (extract raw)] ∧
      (run env file args [confirm]).outcome =
        (if env.execExit = 0 then .exitCode 0 else .exitCode 1)) ∧
    (confirm ≠ "" →
      (run env file args [confirm]).outcome = .exitCode 0 ∧
      ∀ c, Event.execCmd c ∉ (run env file args [confirm]).events) := by
  obtain ⟨a, rest, rfl⟩ : ∃ a rest, args = a :: rest := by
    rcases args with _ | ⟨a, rest⟩
    · exact absurd rfl hargs
    · exact ⟨a, rest, rfl⟩
  unfold run
  rw [hscan, hov]
  dsimp only
  rw [hcfg]
  dsimp only
  unfold gateStage
  rw [hup]
  simp only [if_true]
  unfold instructionStage
  dsimp only
  rw [if_neg htrim]
  unfold generateStage
  rw [hgen]
  dsimp only
  rw [if_neg (by push_neg; exact ⟨hne, hnull⟩)]
  unfold confirmStage
  dsimp only
  constructor
  · intro hcf
    subst hcf
    rw [if_pos rfl]
    constructor
    · rfl
    · by_cases hex : env.execExit = 0
      · simp [hex]
      · simp [hex]
  · intro hcf
    rw [if_neg hcf]
    refine ⟨rfl, ?_⟩
    intro c hmem
    simp at hmem

/-- C2 (amended): whenever the run proceeds to executing a command, that
command is non-empty and is not the literal string `null` — the guard
before confirmation enforces exactly this; it does not ensure the absence
of backtick characters or fence markers. -/
theorem run_executed_command_guarded (env : Env) (file : Option String)
    (args inputs : List String) (cmd : String)
    (hmem : Event.execCmd cmd ∈ (run env file args inputs).events) :
    cmd ≠ "" ∧ cmd ≠ "null" := by
  unfold run at hmem
  rcases hscan : earlyFlagScan args with _ | act
  · rw [hscan] at hmem
    dsimp only at hmem
    rcases hov : extractModelFlag args with ⟨ov, rem⟩
    rw [hov] at hmem
    rcases ov with _ | m
    · dsimp only at hmem
      rcases hcfg : loadConfig file with _ | cfg
      · rw [hcfg] at hmem
        dsimp only at hmem
        rcases hsf : setupFlow env inputs with ⟨evs, so⟩
        rw [hsf] at hmem
        have hevs : ∀ e ∈ evs, e = .setupWelcome ∨ e = .tagsRequest ∨
            ∃ s, e = .fileWrite s := by
          intro e hee
          exact setupFlow_events env inputs e (by rw [hsf]; exact hee)
        rcases so with _ | _ | ⟨name, restIn⟩
        · dsimp only at hmem
          rcases hevs _ hmem with h | h | ⟨s, h⟩ <;> simp at h
        · dsimp only at hmem
          rcases hevs _ hmem with h | h | ⟨s, h⟩ <;> simp at h
        · dsimp only at hmem
          rcases gateStage_events env name rem restIn
              (some (saveConfig ⟨name⟩)) evs _ hmem with h | h | ⟨p, h⟩ | ⟨r, _, h, h1, h2⟩
          · rcases hevs _ h with h | h | ⟨s, h⟩ <;> simp at h
          · simp at h
          · simp at h
          · obtain rfl : cmd = extract r := by
              injection h
            exact ⟨h1, h2⟩
      · rw [hcfg] at hmem
        dsimp only at hmem
        rcases gateStage_events env cfg.model rem inputs file [] _ hmem with
          h | h | ⟨p, h⟩ | ⟨r, _, h, h1, h2⟩
        · simp at h
        · simp at h
        · simp at h
        · obtain rfl : cmd = extract r := by injection h
          exact ⟨h1, h2⟩
    · dsimp only at hmem
      rcases gateStage_events env m rem inputs file [] _ hmem with
        h | h | ⟨p, h⟩ | ⟨r, _, h, h1, h2⟩
      · simp at h
      · simp at h
      · simp at h
      · obtain rfl : cmd = extract r := by injection h
        exact ⟨h1, h2⟩
  · rw [hscan] at hmem
    rcases act with _ | _ | _
    · simp at hmem
    · simp at hmem
    · dsimp only at hmem
      rcases hsf : setupFlow env inputs with ⟨evs, so⟩
      rw [hsf] at hmem
      have hevs : ∀ e ∈ evs, e = .setupWelcome ∨ e = .tagsRequest ∨
          ∃ s, e = .fileWrite s := by
        intro e hee
        exact setupFlow_events env inputs e (by rw [hsf]; exact hee)
      rcases so with _ | _ | ⟨name, restIn⟩ <;> dsimp only at hmem <;>
        rcases hevs _ hmem with h | h | ⟨s, h⟩ <;> simp at h

/-- C9: for a fixed argument list, preference file, environment results
and operator inputs, the run with the debug flag set and the run without
it have the same outcome, the same final preference file, and the same
event trace except for one extra raw-argument echo at the front of the
diagnostic output. -/
theorem langtermMain_debug_transparent (env : Env) (file : Option String)
    (args inputs : List String) :
    (langtermMain env true file args inputs).outcome =
      (langtermMain env false file args inputs).outcome ∧
    (langtermMain env true file args inputs).file =
      (langtermMain env false file args inputs).file ∧
    (langtermMain env true file args inputs).events =
      Event.debugEcho args :: (langtermMain env false file args inputs).events := by
  simp [langtermMain]

/-- C2 (counterexample): the raw response `(fence)ls(fence)` extracts to
itself — a value that passes the run's guard (it is non-empty and not
`null`) and is then executed, even though it still contains backticks and
fence markers; the claimed invariant that the extracted command never
contains fence markers or backticks is false. -/
theorem run_guard_counterexample :
    Event.execCmd "```ls```" ∈
      (run ⟨true, [], some "```ls```", 0, "linux"⟩
        (some (saveConfig ⟨"m"⟩)) ["list"] [""]).events ∧
    ("```ls```".data.any (· = btick)) = true := by
  constructor
  · decide
  · decide

/-- C2 witness: the amended theorem applied to a concrete run that
executes `ls -la`. -/
theorem run_executed_command_guarded_witness :
    ("ls -la" : String) ≠ "" ∧ ("ls -la" : String) ≠ "null" :=
  run_executed_command_guarded ⟨true, [], some "`ls -la`", 0, "linux"⟩
    (some (saveConfig ⟨"m"⟩)) ["list"] [""] "ls -la" (by decide)

/-- C3 witness: the theorem applied to a concrete run; pressing Enter
(empty confirmation) executes the extracted command and, with the child
exiting 0, the process exits 0. -/
theorem run_confirm_gesture_witness :
    (run ⟨true, [], some "`ls -la`", 0, "linux"⟩ (some (saveConfig ⟨"m"⟩))
        ["list", "files"] [""]).events =
      [.tagsRequest,
       .generateRequest (Config.mk "m").model
         (buildPrompt "linux" (String.intercalate " " ["list", "files"])),
       .execCmd (extract "`ls -la`")] ∧
    (run ⟨true, [], some "`ls -la`", 0, "linux"⟩ (some (saveConfig ⟨"m"⟩))
        ["list", "files"] [""]).outcome =
      (if (0 : Int) = 0 then Outcome.exitCode 0 else Outcome.exitCode 1) :=
  (run_confirm_gesture ⟨true, [], some "`ls -la`", 0, "linux"⟩
    (some (saveConfig ⟨"m"⟩)) ["list", "files"] ⟨"m"⟩ "`ls -la`" ""
    (by decide) (by decide) (by decide) rfl (by decide) (by decide) rfl
    (by decide) (by decide)).1 rfl

/-- C6 witness: the theorem applied to a concrete run with the service
down: exit code 1 and no generation request in the trace. -/
theorem run_unavailable_no_generate_witness :
    (run ⟨false, [], none, 0, "linux"⟩ none ["list"] []).outcome =
      Outcome.exitCode 1 ∧
    Event.generateRequest "m" "p" ∉
      (run ⟨false, [], none, 0, "linux"⟩ none ["list"] []).events := by
  have h := run_unavailable_no_generate ⟨false, [], none, 0, "linux"⟩
    none ["list"] [] rfl (by decide)
  exact ⟨h.1, h.2 "m" "p"⟩

/-- C7 witness: the theorem applied to a concrete run with
`-m mistral:7b` and an instruction, no preference file present. -/
theorem run_override_skips_setup_witness :
    (run ⟨true, [], some "`ls`", 0, "linux"⟩ none
        ["-m", "mistral:7b", "list"] [""]).file = none ∧
    Event.setupWelcome ∉
      (run ⟨true, [], some "`ls`", 0, "linux"⟩ none
        ["-m", "mistral:7b", "list"] [""]).events ∧
    Event.fileWrite "x" ∉
      (run ⟨true, [], some "`ls`", 0, "linux"⟩ none
        ["-m", "mistral:7b", "list"] [""]).events := by
  have h := run_override_skips_setup ⟨true, [], some "`ls`", 0, "linux"⟩
    ["-m", "mistral:7b", "list"] [""] "mistral:7b" ["list"]
    (by decide) (by decide) (by decide)
  exact ⟨h.1, h.2.1, h.2.2 "x"⟩

end Langterm
